import Mathlib

/-!
Shallow embedding of `src/MultiFanController.py` (a Raspberry Pi PWM fan
controller) and proofs about its core behaviour: the threshold-table
duty-cycle resolver, the sensor-output parser, the fan setup, the
diagnostic (test-mode) sweep and the primary control loop.

Temperatures, threshold keys and duty-cycle percentages are modelled as
rationals: the Python code only compares and copies these values (no
rounding), so exact arithmetic is faithful.  A Python `dict` is modelled
as an insertion-ordered association list with unique keys; `dict[k]`
raising `KeyError` becomes an `Option`.
-/

namespace PWMFan

/-- A threshold table: insertion-ordered `(threshold, duty_cycle)` pairs,
the embedding of the Python dict `config['temp_to_duty_cycle_thresholds']`. -/
abbrev Table := List (ℚ × ℚ)

/-- Dictionary lookup `lookup[k]` on the association list; `none` models a
Python `KeyError`. -/
def dict_get (tbl : Table) (k : ℚ) : Option ℚ :=
  match tbl with
  | [] => none
  | p :: rest => if p.1 = k then some p.2 else dict_get rest k

/-- The scan of `temp_to_duty_cycle` (lines 92–95), generalised over the
initial value of `target` so that induction on the key list goes through:
`for threshold in thresholds: if temp >= threshold and threshold > target:
target = threshold`. -/
def scan_target (thresholds : List ℚ) (temp : ℚ) (init : ℚ) : ℚ :=
  thresholds.foldl (fun target threshold =>
    if temp ≥ threshold ∧ threshold > target then threshold else target) init

/-- `temp_to_duty_cycle(config, temp)` (lines 89–96): `target` starts at 0,
is raised to every key that is ≤ `temp` and above the running value, and
the table is then indexed at the final `target`. -/
def temp_to_duty_cycle (tbl : Table) (temp : ℚ) : Option ℚ :=
  dict_get tbl (scan_target (tbl.map Prod.fst) temp 0)

/-- Keys of the table, in insertion order (`lookup.keys()`). -/
def table_keys (tbl : Table) : List ℚ := tbl.map Prod.fst

/-- Values of the table, in insertion order (`lookup.values()`). -/
def table_values (tbl : Table) : List ℚ := tbl.map Prod.snd

/-! ### The sensor read, `get_temp` (lines 52–58)

`get_temp` runs `vcgencmd measure_temp`, decodes its stdout and evaluates
`float(temp_str.split('=')[1].split(quote)[0])`, turning `IndexError` /
`ValueError` into a fatal `RuntimeError`.  The decoded stdout is modelled
as a `List Char`; the raised error becomes `none`. -/

/-- Python's `str.split(sep)` for a single-character separator: always
returns a non-empty list of (possibly empty) segments. -/
def split_on (c : Char) : List Char → List (List Char)
  | [] => [[]]
  | x :: xs =>
    let r := split_on c xs
    if x = c then [] :: r
    else
      match r with
      | [] => [[x]]
      | h :: t => (x :: h) :: t

/-- The whitespace characters stripped by Python's `float(str)`. -/
def is_ws (c : Char) : Bool :=
  c == ' ' || c == Char.ofNat 9 || c == Char.ofNat 10 || c == Char.ofNat 11 ||
    c == Char.ofNat 12 || c == Char.ofNat 13

/-- ASCII decimal digit test. -/
def is_digit (c : Char) : Bool := 48 ≤ c.toNat && c.toNat ≤ 57

/-- Value of a string of decimal digits. -/
def digits_to_nat (s : List Char) : ℕ := s.foldl (fun a c => 10 * a + (c.toNat - 48)) 0

/-- Strip leading and trailing whitespace, as `float(str)` does. -/
def strip_ws (s : List Char) : List Char :=
  ((s.dropWhile is_ws).reverse.dropWhile is_ws).reverse

/-- Optional exponent part of a float literal (`e`/`E`, optional sign,
digits), returned as its integer value; empty input means exponent 0. -/
def parse_exp_val : List Char → Option ℤ
  | [] => some 0
  | c :: rest =>
    if c = 'e' ∨ c = 'E' then
      match rest with
      | '+' :: ds =>
        if ds ≠ [] ∧ ds.all is_digit then some ((digits_to_nat ds : ℤ)) else none
      | '-' :: ds =>
        if ds ≠ [] ∧ ds.all is_digit then some (-(digits_to_nat ds : ℤ)) else none
      | ds =>
        if ds ≠ [] ∧ ds.all is_digit then some ((digits_to_nat ds : ℤ)) else none
    else none

/-- Exact value of the decimal literal `mant · 10^(-fracLen) · 10^e`. -/
def decimal_value (mant : ℕ) (fracLen : ℕ) (e : ℤ) : ℚ :=
  if 0 ≤ e then Rat.divInt ((mant : ℤ) * 10 ^ e.toNat) (10 ^ fracLen)
  else Rat.divInt (mant : ℤ) (10 ^ fracLen * 10 ^ (-e).toNat)

/-- Unsigned float literal: digits with an optional decimal point (digits
required on at least one side of the point) and an optional exponent. -/
def parse_number (s : List Char) : Option ℚ :=
  let intPart := s.takeWhile is_digit
  let rest := s.dropWhile is_digit
  match rest with
  | [] => if intPart = [] then none else some (decimal_value (digits_to_nat intPart) 0 0)
  | c :: rest2 =>
    if c = '.' then
      let fracPart := rest2.takeWhile is_digit
      let rest3 := rest2.dropWhile is_digit
      if intPart = [] ∧ fracPart = [] then none
      else
        (parse_exp_val rest3).map
          (fun e => decimal_value (digits_to_nat (intPart ++ fracPart)) fracPart.length e)
    else if intPart = [] then none
    else (parse_exp_val (c :: rest2)).map (fun e => decimal_value (digits_to_nat intPart) 0 e)

/-- Model of Python's `float(str)` builtin on finite decimal literals:
strip whitespace, optional sign, then a decimal literal with optional
fraction and exponent, taken at its exact decimal value.  Digit-group
underscores and the special values `inf` / `infinity` / `nan`, which the
`vcgencmd` output format never produces, are outside the model. -/
def py_float (s : List Char) : Option ℚ :=
  match strip_ws s with
  | '+' :: r => parse_number r
  | '-' :: r => (parse_number r).map (fun x => -x)
  | r => parse_number r

/-- The single quote character (ASCII 39), the unit delimiter in
`temp=45.2` followed by quote-C. -/
def quote_char : Char := Char.ofNat 39

/-- The equals character (ASCII 61), the key/value delimiter. -/
def eq_char : Char := Char.ofNat 61

/-- `get_temp` (lines 52–58) applied to the decoded stdout text:
`float(temp_str.split(eq)[1].split(quote)[0])`, with the caught
`IndexError` / `ValueError` (re-raised as `RuntimeError`) as `none`.
Indexing `[1]` fails exactly when the split produced a single segment;
indexing `[0]` never fails because `split` never returns an empty list. -/
def get_temp (temp_str : List Char) : Option ℚ :=
  match split_on eq_char temp_str with
  | _ :: seg :: _ =>
    match split_on quote_char seg with
    | h :: _ => py_float h
    | [] => none
  | _ => none

/-! ### Configuration, hardware actions and traces

The side-effecting parts of the program (GPIO calls, `time.sleep`, the
`log.debug` per-fan line, the sensor subprocess) are embedded as an
explicit trace of actions in program order. -/

/-- One entry of `config['fans']`. -/
structure FanSpec where
  gpio : ℤ
  hz : ℤ
  deriving DecidableEq, Repr

/-- The loaded `config` mapping. -/
structure Config where
  fans : List FanSpec
  temp_to_duty_cycle_thresholds : Table
  timeout_seconds : ℚ
  deriving DecidableEq, Repr

/-- Observable actions of the program, in program order.  `pwmStop` and
`releasePin` (`fan.stop()` / `RPi.GPIO.cleanup()`) are part of the
vocabulary so that their absence is expressible; the source never
performs them. -/
inductive Action where
  | claimPin (gpio : ℤ)
  | pwmStart (fanIdx : ℕ) (gpio hz : ℤ) (duty : ℚ)
  | readTemp
  | logStep (fanIdx : ℕ) (duty : ℚ)
  | changeDuty (fanIdx : ℕ) (duty : ℚ)
  | sleep (seconds : ℚ)
  | pwmStop (fanIdx : ℕ)
  | releasePin (gpio : ℤ)
  deriving DecidableEq, Repr

/-- Body of the `setup_fans` loop (lines 66–70), carrying the position of
the handle in the `fans` list: claim the pin, attach PWM at the configured
frequency, start it at 0% duty. -/
def setup_fans_aux (idx : ℕ) : List FanSpec → List Action
  | [] => []
  | f :: rest =>
    Action.claimPin f.gpio :: Action.pwmStart idx f.gpio f.hz 0 :: setup_fans_aux (idx + 1) rest

/-- Trace of `setup_fans(config)` (lines 62–71). -/
def setup_fans_trace (config : Config) : List Action :=
  setup_fans_aux 0 config.fans

/-- Inner loop of `test_mode` (lines 80–83): for each duty-cycle value,
log the conceptual step, then sleep; the `ChangeDutyCycle` call is
commented out in the source. -/
def sweep_fan_trace (idx : ℕ) (timeout : ℚ) : List ℚ → List Action
  | [] => []
  | d :: rest => Action.logStep idx d :: Action.sleep timeout :: sweep_fan_trace idx timeout rest

/-- Outer loop of `test_mode` (line 78), over the fans with their index;
the trailing reset `ChangeDutyCycle(0)` (line 84) is also commented out. -/
def test_mode_aux (duty_cycles : List ℚ) (timeout : ℚ) (idx : ℕ) : List FanSpec → List Action
  | [] => []
  | _ :: rest => sweep_fan_trace idx timeout duty_cycles ++ test_mode_aux duty_cycles timeout (idx + 1) rest

/-- Trace of `test_mode(config, fans)` (lines 75–85). -/
def test_mode_trace (config : Config) : List Action :=
  test_mode_aux (table_values config.temp_to_duty_cycle_thresholds) config.timeout_seconds 0 config.fans

/-- Result of one iteration of the primary loop. -/
inductive TickOutcome where
  | sensorError
  | resolutionError
  | ok (duty : ℚ)
  deriving DecidableEq, Repr

/-- The per-fan body of the actuation loop (lines 121–123): log, then
`fans[idx].ChangeDutyCycle(duty_cycle)`, for each fan in list order. -/
def fan_writes_aux (d : ℚ) (idx : ℕ) : List FanSpec → List Action
  | [] => []
  | _ :: rest => Action.logStep idx d :: Action.changeDuty idx d :: fan_writes_aux d (idx + 1) rest

/-- One iteration of the primary loop (lines 110–125) on the given decoded
sensor output: read the temperature (the subprocess call happens even when
parsing then fails), resolve the duty cycle, write it to every fan, sleep.
An exception (`none` from either step) aborts the iteration with no
further actions. -/
def run_tick (config : Config) (sensor_output : List Char) : TickOutcome × List Action :=
  match get_temp sensor_output with
  | none => (TickOutcome.sensorError, [Action.readTemp])
  | some temp =>
    match temp_to_duty_cycle config.temp_to_duty_cycle_thresholds temp with
    | none => (TickOutcome.resolutionError, [Action.readTemp])
    | some d =>
      (TickOutcome.ok d,
        Action.readTemp :: (fan_writes_aux d 0 config.fans ++ [Action.sleep config.timeout_seconds]))

/-- Did the iteration complete without raising? -/
def tick_ok (config : Config) (sensor_output : List Char) : Bool :=
  match (run_tick config sensor_output).1 with
  | TickOutcome.ok _ => true
  | _ => false

/-- The first `n` iterations of `while (1)` (line 110), fed by a stream of
decoded sensor outputs.  The boolean records whether the loop is still
running: the loop itself has no exit, so it only becomes `false` when an
iteration raises (the exception propagates out of `main` and kills the
process). -/
def run_loop (config : Config) (outputs : ℕ → List Char) : ℕ → List Action × Bool
  | 0 => ([], true)
  | n + 1 =>
    let prev := run_loop config outputs n
    if prev.2 then (prev.1 ++ (run_tick config (outputs n)).2, tick_ok config (outputs n))
    else prev

/-- The whole program in test mode (`main` with `args.test` set): load the
config, set up the fans, run the sweep, fall off the end of `main` — the
interpreter then exits with code 0.  This is the program's only normally
terminating path. -/
def run_program_test (config : Config) : List Action × ℕ :=
  (setup_fans_trace config ++ test_mode_trace config, 0)

/-- Effect of one action on the per-channel duty-cycle state (indexed by
position in the fan list). -/
def apply_action (s : ℕ → ℚ) : Action → ℕ → ℚ
  | Action.pwmStart i _ _ d => fun j => if j = i then d else s j
  | Action.changeDuty i d => fun j => if j = i then d else s j
  | _ => s

/-- Duty-cycle state after a trace. -/
def duty_state (s : ℕ → ℚ) (tr : List Action) : ℕ → ℚ := tr.foldl apply_action s

/-- Effect of one action on the set of claimed GPIO pins. -/
def pins_action (s : List ℤ) : Action → List ℤ
  | Action.claimPin g => g :: s
  | Action.releasePin g => s.erase g
  | _ => s

/-- Claimed pins after a trace. -/
def pins_state (s : List ℤ) (tr : List Action) : List ℤ := tr.foldl pins_action s

/-- Does the action stop a PWM channel or release a pin claim? -/
def is_shutdown_action : Action → Bool
  | Action.pwmStop _ => true
  | Action.releasePin _ => true
  | _ => false

/-- Does the action write a duty cycle to the hardware? -/
def is_hw_write : Action → Bool
  | Action.pwmStart _ _ _ _ => true
  | Action.changeDuty _ _ => true
  | _ => false

/-- "Every conceptual duty-cycle step is immediately followed by a sleep
of the configured timeout". -/
def steps_followed (t : ℚ) (tr : List Action) : Prop :=
  ∀ i f d, tr[i]? = some (Action.logStep f d) → tr[i + 1]? = some (Action.sleep t)

/-- "Every conceptual duty-cycle step is preceded by one sleep of the
configured timeout": the property the specification asserts of the
diagnostic sweep. -/
def step_preceded_by_sleep (timeout : ℚ) (tr : List Action) : Bool :=
  (List.range tr.length).all (fun i =>
    match tr[i]? with
    | some (Action.logStep _ _) => decide (0 < i) && (tr[i - 1]? == some (Action.sleep timeout))
    | _ => true)

/-! ### Concrete inputs used by witnesses and counterexamples -/

/-- The threshold table of spec scenarios 1–3. -/
def scenario_table : Table := [(0, 0), (40, 30), (60, 60), (80, 100)]

/-- A two-fan configuration with the scenario table. -/
def two_fan_config : Config :=
  { fans := [{ gpio := 14, hz := 100 }, { gpio := 15, hz := 100 }]
    temp_to_duty_cycle_thresholds := scenario_table
    timeout_seconds := 5 }

/-- A two-fan configuration whose table has exactly three values. -/
def sweep_config : Config :=
  { fans := [{ gpio := 14, hz := 100 }, { gpio := 15, hz := 100 }]
    temp_to_duty_cycle_thresholds := [(0, 0), (40, 30), (60, 60)]
    timeout_seconds := 5 }

/-- A decoded sensor output `temp=45.2` followed by quote and `C`: the
well-formed `vcgencmd` format. -/
def good_output : List Char :=
  ['t', 'e', 'm', 'p', '=', '4', '5', '.', '2'] ++ [quote_char, 'C']

/-- A decoded sensor output `temp=45.2` with no unit suffix at all. -/
def no_suffix_output : List Char :=
  ['t', 'e', 'm', 'p', '=', '4', '5', '.', '2']

/-- A malformed decoded sensor output with no `=` separator. -/
def malformed_output : List Char :=
  ['t', 'e', 'm', 'p']

/-! ### Facts about the `target` scan -/

theorem scan_target_nil (t init : ℚ) : scan_target [] t init = init := rfl

theorem scan_target_cons (k : ℚ) (ks : List ℚ) (t init : ℚ) :
    scan_target (k :: ks) t init
      = scan_target ks t (if t ≥ k ∧ k > init then k else init) := rfl

/-- The scan never lowers `target`. -/
theorem scan_target_ge_init (ks : List ℚ) (t init : ℚ) :
    init ≤ scan_target ks t init := by
  induction ks generalizing init with
  | nil => exact le_refl _
  | cons k rest ih =>
    rw [scan_target_cons]
    by_cases h : t ≥ k ∧ k > init
    · rw [if_pos h]; exact le_trans (le_of_lt h.2) (ih k)
    · rw [if_neg h]; exact ih init

/-- The final `target` is the initial one or an element of the key list. -/
theorem scan_target_mem (ks : List ℚ) (t init : ℚ) :
    scan_target ks t init = init ∨ scan_target ks t init ∈ ks := by
  induction ks generalizing init with
  | nil => exact Or.inl rfl
  | cons k rest ih =>
    rw [scan_target_cons]
    by_cases h : t ≥ k ∧ k > init
    · rw [if_pos h]
      rcases ih k with h1 | h1
      · rw [h1]; exact Or.inr (List.mem_cons_self k rest)
      · exact Or.inr (List.mem_cons_of_mem k h1)
    · rw [if_neg h]
      rcases ih init with h1 | h1
      · exact Or.inl h1
      · exact Or.inr (List.mem_cons_of_mem k h1)

/-- The final `target` is at most the temperature, unless it never moved. -/
theorem scan_target_le_temp (ks : List ℚ) (t init : ℚ) :
    scan_target ks t init ≤ t ∨ scan_target ks t init = init := by
  induction ks generalizing init with
  | nil => exact Or.inr rfl
  | cons k rest ih =>
    rw [scan_target_cons]
    by_cases h : t ≥ k ∧ k > init
    · rw [if_pos h]
      rcases ih k with h1 | h1
      · exact Or.inl h1
      · rw [h1]; exact Or.inl h.1
    · rw [if_neg h]; exact ih init

/-- Every key that is ≤ the temperature is ≤ the final `target`. -/
theorem scan_target_ub (ks : List ℚ) (t init : ℚ) (k : ℚ)
    (hk : k ∈ ks) (hkt : k ≤ t) : k ≤ scan_target ks t init := by
  induction ks generalizing init with
  | nil => exact absurd hk (List.not_mem_nil k)
  | cons k0 rest ih =>
    rw [scan_target_cons]
    rcases List.mem_cons.mp hk with rfl | hmem
    · by_cases h : t ≥ k ∧ k > init
      · rw [if_pos h]; exact scan_target_ge_init rest t k
      · rw [if_neg h]
        have hle : k ≤ init := by
          by_contra hgt
          exact h ⟨hkt, lt_of_not_le hgt⟩
        exact le_trans hle (scan_target_ge_init rest t init)
    · by_cases h : t ≥ k0 ∧ k0 > init
      · rw [if_pos h]; exact ih k0 hmem
      · rw [if_neg h]; exact ih init hmem

/-- The scan is monotone in its initial value. -/
theorem scan_target_mono_init (ks : List ℚ) (t : ℚ) (a b : ℚ) (hab : a ≤ b) :
    scan_target ks t a ≤ scan_target ks t b := by
  induction ks generalizing a b with
  | nil => exact hab
  | cons k rest ih =>
    rw [scan_target_cons, scan_target_cons]
    by_cases ha : t ≥ k ∧ k > a
    · by_cases hb : t ≥ k ∧ k > b
      · rw [if_pos ha, if_pos hb]
      · rw [if_pos ha, if_neg hb]
        have hkb : k ≤ b := by
          by_contra hgt
          exact hb ⟨ha.1, lt_of_not_le hgt⟩
        exact ih k b hkb
    · by_cases hb : t ≥ k ∧ k > b
      · rw [if_neg ha, if_pos hb]; exact ih a k (le_of_lt (lt_of_le_of_lt hab hb.2))
      · rw [if_neg ha, if_neg hb]; exact ih a b hab

/-- The scan is monotone in the temperature. -/
theorem scan_target_mono_temp (ks : List ℚ) {t t' : ℚ} (htt : t ≤ t') (init : ℚ) :
    scan_target ks t init ≤ scan_target ks t' init := by
  induction ks generalizing init with
  | nil => exact le_refl _
  | cons k rest ih =>
    rw [scan_target_cons, scan_target_cons]
    by_cases h : t ≥ k ∧ k > init
    · rw [if_pos h, if_pos ⟨le_trans h.1 htt, h.2⟩]; exact ih k
    · rw [if_neg h]
      by_cases h' : t' ≥ k ∧ k > init
      · rw [if_pos h']
        exact le_trans (scan_target_mono_init rest t init k (le_of_lt h'.2)) (ih k)
      · rw [if_neg h']; exact ih init

/-- If every key is above the temperature or at most the initial value, the
scan never moves. -/
theorem scan_target_fixed (ks : List ℚ) (t init : ℚ)
    (h : ∀ k ∈ ks, t < k ∨ k ≤ init) : scan_target ks t init = init := by
  induction ks with
  | nil => rfl
  | cons k rest ih =>
    rw [scan_target_cons]
    have hk := h k (List.mem_cons_self k rest)
    have hcond : ¬(t ≥ k ∧ k > init) := by
      rintro ⟨h1, h2⟩
      rcases hk with h3 | h3
      · exact absurd h1 (not_le.mpr h3)
      · exact absurd h3 (not_le.mpr h2)
    rw [if_neg hcond]
    exact ih (fun k hk => h k (List.mem_cons_of_mem _ hk))

/-! ### Facts about dictionary lookup -/

/-- A successful lookup returns a pair of the table. -/
theorem dict_get_mem {tbl : Table} {k v : ℚ} (h : dict_get tbl k = some v) :
    (k, v) ∈ tbl := by
  induction tbl with
  | nil => exact absurd h (by simp [dict_get])
  | cons p rest ih =>
    rw [dict_get] at h
    by_cases hp : p.1 = k
    · rw [if_pos hp] at h
      have : p = (k, v) := by
        cases p
        simp only at hp
        simp only [Option.some.injEq] at h
        simp [hp, h]
      exact this ▸ List.mem_cons_self p rest
    · rw [if_neg hp] at h
      exact List.mem_cons_of_mem p (ih h)

/-- Lookup of a present key succeeds. -/
theorem dict_get_isSome {tbl : Table} {k : ℚ} (h : k ∈ table_keys tbl) :
    (dict_get tbl k).isSome := by
  induction tbl with
  | nil => exact absurd h (by simp [table_keys])
  | cons p rest ih =>
    rw [dict_get]
    by_cases hp : p.1 = k
    · rw [if_pos hp]; rfl
    · rw [if_neg hp]
      rcases List.mem_cons.mp h with h1 | h1
      · exact absurd h1.symm hp
      · exact ih h1

/-- Lookup of an absent key fails (a Python `KeyError`). -/
theorem dict_get_eq_none {tbl : Table} {k : ℚ} (h : k ∉ table_keys tbl) :
    dict_get tbl k = none := by
  induction tbl with
  | nil => rfl
  | cons p rest ih =>
    rw [dict_get]
    have hp : p.1 ≠ k := fun he => h (he ▸ List.mem_cons_self p.1 _)
    rw [if_neg hp]
    exact ih (fun hm => h (List.mem_cons_of_mem p.1 hm))

/-- With unique keys, lookup of a present pair returns its value. -/
theorem dict_get_of_mem {tbl : Table} {k v : ℚ}
    (hnodup : (table_keys tbl).Nodup) (h : (k, v) ∈ tbl) :
    dict_get tbl k = some v := by
  induction tbl with
  | nil => exact absurd h (List.not_mem_nil _)
  | cons p rest ih =>
    rw [dict_get]
    rcases List.mem_cons.mp h with rfl | h1
    · rw [if_pos rfl]
    · have hnd := (List.nodup_cons.mp hnodup)
      have hp : p.1 ≠ k := by
        intro he
        exact hnd.1 (he ▸ List.mem_map_of_mem Prod.fst h1)
      rw [if_neg hp]
      exact ih hnd.2 h1

/-- A successful lookup returns one of the table's values. -/
theorem dict_get_val_mem {tbl : Table} {k v : ℚ} (h : dict_get tbl k = some v) :
    v ∈ table_values tbl :=
  List.mem_map_of_mem Prod.snd (dict_get_mem h)

/-! ### Facts about `split_on` -/

/-- `str.split` never returns an empty list. -/
theorem split_on_ne_nil (c : Char) (s : List Char) : split_on c s ≠ [] := by
  induction s with
  | nil => simp [split_on]
  | cons x xs ih =>
    rw [split_on]
    by_cases hx : x = c
    · simp [hx]
    · rw [if_neg hx]
      match h : split_on c xs with
      | [] => simp
      | h0 :: t0 => simp

/-- The split has at least two segments exactly when the separator occurs. -/
theorem split_on_two_iff (c : Char) (s : List Char) :
    2 ≤ (split_on c s).length ↔ c ∈ s := by
  induction s with
  | nil => simp [split_on]
  | cons x xs ih =>
    rw [split_on]
    by_cases hx : x = c
    · rw [if_pos hx]
      have h1 := split_on_ne_nil c xs
      constructor
      · intro _; exact hx ▸ List.mem_cons_self x xs
      · intro _
        have : 0 < (split_on c xs).length := List.length_pos.mpr h1
        simpa using this
    · rw [if_neg hx]
      match h : split_on c xs with
      | [] => exact absurd h (split_on_ne_nil c xs)
      | h0 :: t0 =>
        simp only [List.length_cons]
        rw [h] at ih
        simp only [List.length_cons] at ih
        constructor
        · intro h2
          exact List.mem_cons_of_mem x (ih.mp h2)
        · intro h2
          rcases List.mem_cons.mp h2 with h3 | h3
          · exact absurd h3.symm hx
          · exact ih.mpr h3

/-! ### Facts about traces -/

/-- The fan setup performs no channel stop and no pin release. -/
theorem setup_fans_aux_no_shutdown (fs : List FanSpec) (idx : ℕ) :
    ∀ a ∈ setup_fans_aux idx fs, is_shutdown_action a = false := by
  induction fs generalizing idx with
  | nil => intro a ha; exact absurd ha (List.not_mem_nil a)
  | cons f rest ih =>
    intro a ha
    rcases List.mem_cons.mp ha with rfl | ha1
    · rfl
    rcases List.mem_cons.mp ha1 with rfl | ha2
    · rfl
    · exact ih (idx + 1) a ha2

/-- The per-fan sweep performs no channel stop and no pin release. -/
theorem sweep_fan_trace_no_shutdown (dc : List ℚ) (idx : ℕ) (t : ℚ) :
    ∀ a ∈ sweep_fan_trace idx t dc, is_shutdown_action a = false := by
  induction dc with
  | nil => intro a ha; exact absurd ha (List.not_mem_nil a)
  | cons d rest ih =>
    intro a ha
    rcases List.mem_cons.mp ha with rfl | ha1
    · rfl
    rcases List.mem_cons.mp ha1 with rfl | ha2
    · rfl
    · exact ih a ha2

/-- The test-mode sweep performs no channel stop and no pin release. -/
theorem test_mode_aux_no_shutdown (dc : List ℚ) (t : ℚ) (fs : List FanSpec) (idx : ℕ) :
    ∀ a ∈ test_mode_aux dc t idx fs, is_shutdown_action a = false := by
  induction fs generalizing idx with
  | nil => intro a ha; exact absurd ha (List.not_mem_nil a)
  | cons f rest ih =>
    intro a ha
    rcases List.mem_append.mp ha with ha1 | ha1
    · exact sweep_fan_trace_no_shutdown dc idx t a ha1
    · exact ih (idx + 1) a ha1

/-- The actuation writes perform no channel stop and no pin release. -/
theorem fan_writes_aux_no_shutdown (d : ℚ) (fs : List FanSpec) (idx : ℕ) :
    ∀ a ∈ fan_writes_aux d idx fs, is_shutdown_action a = false := by
  induction fs generalizing idx with
  | nil => intro a ha; exact absurd ha (List.not_mem_nil a)
  | cons f rest ih =>
    intro a ha
    rcases List.mem_cons.mp ha with rfl | ha1
    · rfl
    rcases List.mem_cons.mp ha1 with rfl | ha2
    · rfl
    · exact ih (idx + 1) a ha2

/-- A loop iteration performs no channel stop and no pin release. -/
theorem run_tick_no_shutdown (config : Config) (out : List Char) :
    ∀ a ∈ (run_tick config out).2, is_shutdown_action a = false := by
  intro a ha
  cases h1 : get_temp out with
  | none =>
    simp only [run_tick, h1, List.mem_singleton] at ha
    subst ha; rfl
  | some temp =>
    cases h2 : temp_to_duty_cycle config.temp_to_duty_cycle_thresholds temp with
    | none =>
      simp only [run_tick, h1, h2, List.mem_singleton] at ha
      subst ha; rfl
    | some d =>
      simp only [run_tick, h1, h2] at ha
      rcases List.mem_cons.mp ha with rfl | ha1
      · rfl
      rcases List.mem_append.mp ha1 with ha2 | ha2
      · exact fan_writes_aux_no_shutdown d config.fans 0 a ha2
      · rcases List.mem_singleton.mp ha2 with rfl
        rfl

/-- The primary loop performs no channel stop and no pin release. -/
theorem run_loop_no_shutdown (config : Config) (outputs : ℕ → List Char) (n : ℕ) :
    ∀ a ∈ (run_loop config outputs n).1, is_shutdown_action a = false := by
  induction n with
  | zero => intro a ha; exact absurd ha (List.not_mem_nil a)
  | succ n ih =>
    intro a ha
    rw [run_loop] at ha
    by_cases h1 : (run_loop config outputs n).2
    · simp only [h1, if_true] at ha
      rcases List.mem_append.mp ha with ha1 | ha1
      · exact ih a ha1
      · exact run_tick_no_shutdown config (outputs n) a ha1
    · simp only [h1, if_false] at ha
      exact ih a ha

/-! ### Facts about pin claims and duty-cycle state -/

/-- Without releases, already-claimed pins stay claimed. -/
theorem pins_state_mono (tr : List Action)
    (h : ∀ a ∈ tr, is_shutdown_action a = false) (s : List ℤ) :
    ∀ g ∈ s, g ∈ pins_state s tr := by
  induction tr generalizing s with
  | nil => intro g hg; exact hg
  | cons a rest ih =>
    intro g hg
    have ha := h a (List.mem_cons_self a rest)
    have hrest : ∀ b ∈ rest, is_shutdown_action b = false :=
      fun b hb => h b (List.mem_cons_of_mem a hb)
    have hg' : g ∈ pins_action s a := by
      cases a with
      | claimPin g0 => exact List.mem_cons_of_mem g0 hg
      | releasePin g0 => exact absurd ha (by simp [is_shutdown_action])
      | pwmStop i => exact absurd ha (by simp [is_shutdown_action])
      | pwmStart i g0 hz d => exact hg
      | readTemp => exact hg
      | logStep i d => exact hg
      | changeDuty i d => exact hg
      | sleep t => exact hg
    exact ih hrest (pins_action s a) g hg'

/-- Without releases, every pin claimed during the trace is still claimed
at its end. -/
theorem pins_state_claimed (tr : List Action)
    (h : ∀ a ∈ tr, is_shutdown_action a = false) (s : List ℤ) :
    ∀ g, Action.claimPin g ∈ tr → g ∈ pins_state s tr := by
  induction tr generalizing s with
  | nil => intro g hg; exact absurd hg (List.not_mem_nil _)
  | cons a rest ih =>
    intro g hg
    have hrest : ∀ b ∈ rest, is_shutdown_action b = false :=
      fun b hb => h b (List.mem_cons_of_mem a hb)
    rcases List.mem_cons.mp hg with rfl | hg1
    · exact pins_state_mono rest hrest _ g (List.mem_cons_self g _)
    · exact ih hrest (pins_action s a) g hg1

/-- Actions that are not hardware writes leave the duty state unchanged. -/
theorem apply_action_no_write (s : ℕ → ℚ) (a : Action) (h : is_hw_write a = false) :
    apply_action s a = s := by
  cases a with
  | pwmStart i g hz d => exact absurd h (by simp [is_hw_write])
  | changeDuty i d => exact absurd h (by simp [is_hw_write])
  | claimPin g => rfl
  | readTemp => rfl
  | logStep i d => rfl
  | sleep t => rfl
  | pwmStop i => rfl
  | releasePin g => rfl

/-- The duty state after a concatenated trace. -/
theorem duty_state_append (s : ℕ → ℚ) (A B : List Action) :
    duty_state s (A ++ B) = duty_state (duty_state s A) B := by
  simp [duty_state, List.foldl_append]

/-- A trace with no hardware writes leaves the duty state unchanged. -/
theorem duty_state_no_write (tr : List Action)
    (h : ∀ a ∈ tr, is_hw_write a = false) (s : ℕ → ℚ) :
    duty_state s tr = s := by
  induction tr generalizing s with
  | nil => rfl
  | cons a rest ih =>
    have ha := apply_action_no_write s a (h a (List.mem_cons_self a rest))
    have hrest : ∀ b ∈ rest, is_hw_write b = false :=
      fun b hb => h b (List.mem_cons_of_mem a hb)
    show duty_state (apply_action s a) rest = s
    rw [ha]
    exact ih hrest s

/-- The per-fan sweep contains no hardware write: both `ChangeDutyCycle`
calls of `test_mode` are commented out in the source. -/
theorem sweep_fan_trace_no_write (dc : List ℚ) (idx : ℕ) (t : ℚ) :
    ∀ a ∈ sweep_fan_trace idx t dc, is_hw_write a = false := by
  induction dc with
  | nil => intro a ha; exact absurd ha (List.not_mem_nil a)
  | cons d rest ih =>
    intro a ha
    rcases List.mem_cons.mp ha with rfl | ha1
    · rfl
    rcases List.mem_cons.mp ha1 with rfl | ha2
    · rfl
    · exact ih a ha2

/-- The whole test-mode sweep contains no hardware write. -/
theorem test_mode_aux_no_write (dc : List ℚ) (t : ℚ) (fs : List FanSpec) (idx : ℕ) :
    ∀ a ∈ test_mode_aux dc t idx fs, is_hw_write a = false := by
  induction fs generalizing idx with
  | nil => intro a ha; exact absurd ha (List.not_mem_nil a)
  | cons f rest ih =>
    intro a ha
    rcases List.mem_append.mp ha with ha1 | ha1
    · exact sweep_fan_trace_no_write dc idx t a ha1
    · exact ih (idx + 1) a ha1

/-- Fan setup does not touch channels below the starting index. -/
theorem setup_fans_aux_duty_lt (fs : List FanSpec) (idx : ℕ) (s : ℕ → ℚ) (i : ℕ)
    (h : i < idx) : duty_state s (setup_fans_aux idx fs) i = s i := by
  induction fs generalizing idx s with
  | nil => rfl
  | cons f rest ih =>
    have h2 : duty_state s (setup_fans_aux idx (f :: rest)) i
        = duty_state (apply_action s (Action.pwmStart idx f.gpio f.hz 0))
            (setup_fans_aux (idx + 1) rest) i := rfl
    rw [h2, ih (idx + 1) _ (Nat.lt_succ_of_lt h)]
    show (if i = idx then (0:ℚ) else s i) = s i
    rw [if_neg (Nat.ne_of_lt h)]

/-- Fan setup starts every configured channel at a 0% duty cycle. -/
theorem setup_fans_aux_duty_eq (fs : List FanSpec) (idx : ℕ) (s : ℕ → ℚ) (i : ℕ)
    (h1 : idx ≤ i) (h2 : i < idx + fs.length) :
    duty_state s (setup_fans_aux idx fs) i = 0 := by
  induction fs generalizing idx s with
  | nil => simp at h2; omega
  | cons f rest ih =>
    have heq : duty_state s (setup_fans_aux idx (f :: rest)) i
        = duty_state (apply_action s (Action.pwmStart idx f.gpio f.hz 0))
            (setup_fans_aux (idx + 1) rest) i := rfl
    rw [heq]
    rcases Nat.eq_or_lt_of_le h1 with rfl | hlt
    · rw [setup_fans_aux_duty_lt rest (idx + 1) _ idx (Nat.lt_succ_self idx)]
      show (if idx = idx then (0:ℚ) else s idx) = 0
      rw [if_pos rfl]
    · apply ih (idx + 1) _ hlt
      simp only [List.length_cons] at h2
      omega

/-! ### Shape of the diagnostic sweep -/

theorem sweep_fan_trace_length (idx : ℕ) (t : ℚ) (dc : List ℚ) :
    (sweep_fan_trace idx t dc).length = 2 * dc.length := by
  induction dc with
  | nil => rfl
  | cons d rest ih =>
    show (Action.logStep idx d :: Action.sleep t :: sweep_fan_trace idx t rest).length = _
    simp only [List.length_cons, ih]
    omega

/-- Entry `2j` of a per-fan sweep is the log of the `j`-th duty value and
entry `2j+1` the following sleep. -/
theorem sweep_fan_trace_getElem (idx : ℕ) (t : ℚ) (dc : List ℚ) :
    ∀ j, j < dc.length →
      (sweep_fan_trace idx t dc)[2 * j]? = some (Action.logStep idx (dc.getD j 0)) ∧
      (sweep_fan_trace idx t dc)[2 * j + 1]? = some (Action.sleep t) := by
  induction dc with
  | nil => intro j hj; simp at hj
  | cons d rest ih =>
    intro j hj
    cases j with
    | zero => constructor <;> simp [sweep_fan_trace]
    | succ j0 =>
      have hj0 : j0 < rest.length := by
        simp only [List.length_cons] at hj
        omega
      have e1 : 2 * (j0 + 1) = 2 * j0 + 1 + 1 := by omega
      rw [e1]
      simp only [sweep_fan_trace, List.getElem?_cons_succ, List.getD_cons_succ]
      exact ih j0 hj0

/-- A per-fan sweep sleeps once per duty value. -/
theorem sweep_fan_trace_count (idx : ℕ) (t : ℚ) (dc : List ℚ) :
    (sweep_fan_trace idx t dc).count (Action.sleep t) = dc.length := by
  induction dc with
  | nil => rfl
  | cons d rest ih =>
    show (Action.logStep idx d :: Action.sleep t :: sweep_fan_trace idx t rest).count _ = _
    simp [List.count_cons, ih]

/-- In a per-fan sweep, each conceptual step is immediately followed by a
sleep of the timeout. -/
theorem sweep_fan_trace_followed (idx : ℕ) (t : ℚ) (dc : List ℚ) :
    steps_followed t (sweep_fan_trace idx t dc) := by
  induction dc with
  | nil => intro i f d h; simp [sweep_fan_trace] at h
  | cons d0 rest ih =>
    intro i f d h
    match i with
    | 0 => simp [sweep_fan_trace]
    | 1 => exact absurd h (by simp [sweep_fan_trace])
    | i0 + 2 =>
      simp only [sweep_fan_trace, List.getElem?_cons_succ] at h ⊢
      exact ih i0 f d h

/-- `steps_followed` is preserved by concatenation. -/
theorem steps_followed_append {t : ℚ} {A B : List Action}
    (hA : steps_followed t A) (hB : steps_followed t B) : steps_followed t (A ++ B) := by
  intro i f d h
  by_cases hi : i < A.length
  · rw [List.getElem?_append_left hi] at h
    have h2 := hA i f d h
    have hlt : i + 1 < A.length := by
      rcases List.getElem?_eq_some.mp h2 with ⟨hlt, _⟩
      exact hlt
    rw [List.getElem?_append_left hlt]
    exact h2
  · push_neg at hi
    rw [List.getElem?_append_right hi] at h
    have h2 := hB (i - A.length) f d h
    rw [List.getElem?_append_right (le_trans hi (Nat.le_succ i))]
    have harith : i + 1 - A.length = (i - A.length) + 1 := by omega
    rw [harith]
    exact h2

theorem test_mode_aux_followed (dc : List ℚ) (t : ℚ) (fs : List FanSpec) (idx : ℕ) :
    steps_followed t (test_mode_aux dc t idx fs) := by
  induction fs generalizing idx with
  | nil => intro i f d h; simp [test_mode_aux] at h
  | cons f0 rest ih =>
    exact steps_followed_append (sweep_fan_trace_followed idx t dc) (ih (idx + 1))

theorem test_mode_aux_length (dc : List ℚ) (t : ℚ) (fs : List FanSpec) (idx : ℕ) :
    (test_mode_aux dc t idx fs).length = fs.length * (2 * dc.length) := by
  induction fs generalizing idx with
  | nil => simp [test_mode_aux]
  | cons f0 rest ih =>
    show (sweep_fan_trace idx t dc ++ test_mode_aux dc t (idx + 1) rest).length = _
    rw [List.length_append, sweep_fan_trace_length, ih (idx + 1), List.length_cons]
    ring

/-- The sweep sleeps once per fan-and-value combination. -/
theorem test_mode_aux_count (dc : List ℚ) (t : ℚ) (fs : List FanSpec) (idx : ℕ) :
    (test_mode_aux dc t idx fs).count (Action.sleep t) = fs.length * dc.length := by
  induction fs generalizing idx with
  | nil => simp [test_mode_aux]
  | cons f0 rest ih =>
    show (sweep_fan_trace idx t dc ++ test_mode_aux dc t (idx + 1) rest).count _ = _
    rw [List.count_append, sweep_fan_trace_count, ih (idx + 1), List.length_cons]
    ring

/-- Position `2(f·|dc| + j)` of the sweep logs value `j` for fan `f`: the
fans are visited in configured order and, within a fan, the duty values in
table insertion order. -/
theorem test_mode_aux_getElem (dc : List ℚ) (t : ℚ) (fs : List FanSpec) :
    ∀ idx f j, f < fs.length → j < dc.length →
      (test_mode_aux dc t idx fs)[2 * (f * dc.length + j)]?
        = some (Action.logStep (idx + f) (dc.getD j 0)) ∧
      (test_mode_aux dc t idx fs)[2 * (f * dc.length + j) + 1]?
        = some (Action.sleep t) := by
  induction fs with
  | nil => intro idx f j hf hj; simp at hf
  | cons f0 rest ih =>
    intro idx f j hf hj
    show ((sweep_fan_trace idx t dc ++ test_mode_aux dc t (idx + 1) rest)[_]? = _)
      ∧ ((sweep_fan_trace idx t dc ++ test_mode_aux dc t (idx + 1) rest)[_]? = _)
    cases f with
    | zero =>
      have hj2 : 2 * (0 * dc.length + j) = 2 * j := by omega
      have hb1 : 2 * j < (sweep_fan_trace idx t dc).length := by
        rw [sweep_fan_trace_length]; omega
      have hb2 : 2 * j + 1 < (sweep_fan_trace idx t dc).length := by
        rw [sweep_fan_trace_length]; omega
      rw [hj2, List.getElem?_append_left hb1, List.getElem?_append_left hb2,
        Nat.add_zero]
      exact sweep_fan_trace_getElem idx t dc j hj
    | succ f0' =>
      have hlen : (sweep_fan_trace idx t dc).length = 2 * dc.length :=
        sweep_fan_trace_length idx t dc
      have hidx : 2 * ((f0' + 1) * dc.length + j)
          = 2 * dc.length + 2 * (f0' * dc.length + j) := by
        ring
      have hge1 : (sweep_fan_trace idx t dc).length ≤ 2 * ((f0' + 1) * dc.length + j) := by
        rw [hlen, hidx]; omega
      have hge2 : (sweep_fan_trace idx t dc).length
          ≤ 2 * ((f0' + 1) * dc.length + j) + 1 := le_trans hge1 (Nat.le_succ _)
      rw [List.getElem?_append_right hge1, List.getElem?_append_right hge2, hlen, hidx]
      have harith1 : 2 * dc.length + 2 * (f0' * dc.length + j) - 2 * dc.length
          = 2 * (f0' * dc.length + j) := by omega
      have harith2 : 2 * dc.length + 2 * (f0' * dc.length + j) + 1 - 2 * dc.length
          = 2 * (f0' * dc.length + j) + 1 := by omega
      rw [harith1, harith2]
      have hf0 : f0' < rest.length := by
        simp only [List.length_cons] at hf
        omega
      have hres := ih (idx + 1) f0' j hf0 hj
      have hidx2 : idx + 1 + f0' = idx + (f0' + 1) := by omega
      rw [hidx2] at hres
      exact hres

/-! ### Shape of a loop iteration and of the loop -/

theorem fan_writes_aux_length (d : ℚ) (fs : List FanSpec) (idx : ℕ) :
    (fan_writes_aux d idx fs).length = 2 * fs.length := by
  induction fs generalizing idx with
  | nil => rfl
  | cons f rest ih =>
    show (Action.logStep idx d :: Action.changeDuty idx d :: fan_writes_aux d (idx + 1) rest).length = _
    simp only [List.length_cons, ih (idx + 1)]
    omega

/-- Entry `2j` of the actuation writes logs fan `j` and entry `2j+1`
writes the (single, shared) duty cycle to fan `j`: every fan receives the
same value, in configured index order. -/
theorem fan_writes_aux_getElem (d : ℚ) (fs : List FanSpec) :
    ∀ idx j, j < fs.length →
      (fan_writes_aux d idx fs)[2 * j]? = some (Action.logStep (idx + j) d) ∧
      (fan_writes_aux d idx fs)[2 * j + 1]? = some (Action.changeDuty (idx + j) d) := by
  induction fs with
  | nil => intro idx j hj; simp at hj
  | cons f rest ih =>
    intro idx j hj
    cases j with
    | zero => constructor <;> simp [fan_writes_aux]
    | succ j0 =>
      have hj0 : j0 < rest.length := by
        simp only [List.length_cons] at hj
        omega
      have e1 : 2 * (j0 + 1) = 2 * j0 + 1 + 1 := by omega
      rw [e1]
      simp only [fan_writes_aux, List.getElem?_cons_succ]
      have hres := ih (idx + 1) j0 hj0
      have hidx : idx + 1 + j0 = idx + (j0 + 1) := by omega
      rw [hidx] at hres
      exact hres

/-- Every duty-cycle write in the actuation loop carries the resolved
value. -/
theorem fan_writes_aux_changeDuty (d : ℚ) (fs : List FanSpec) :
    ∀ idx i dd, Action.changeDuty i dd ∈ fan_writes_aux d idx fs → dd = d := by
  induction fs with
  | nil => intro idx i dd h; exact absurd h (List.not_mem_nil _)
  | cons f rest ih =>
    intro idx i dd h
    rcases List.mem_cons.mp h with h1 | h1
    · exact absurd h1 (by simp)
    rcases List.mem_cons.mp h1 with h2 | h2
    · cases h2
      rfl
    · exact ih (idx + 1) i dd h2

/-- A successful iteration reads the sensor, resolves one duty cycle from
the parsed temperature, writes it to the fans and sleeps. -/
theorem run_tick_ok_shape (config : Config) (out : List Char)
    (h : tick_ok config out = true) :
    ∃ temp d, get_temp out = some temp ∧
      temp_to_duty_cycle config.temp_to_duty_cycle_thresholds temp = some d ∧
      (run_tick config out).1 = TickOutcome.ok d ∧
      (run_tick config out).2
        = Action.readTemp ::
            (fan_writes_aux d 0 config.fans ++ [Action.sleep config.timeout_seconds]) := by
  cases h1 : get_temp out with
  | none => rw [tick_ok] at h; simp [run_tick, h1] at h
  | some temp =>
    cases h2 : temp_to_duty_cycle config.temp_to_duty_cycle_thresholds temp with
    | none => rw [tick_ok] at h; simp [run_tick, h1, h2] at h
    | some d =>
      refine ⟨temp, d, rfl, h2, ?_, ?_⟩
      · simp [run_tick, h1, h2]
      · simp [run_tick, h1, h2]

/-- A failing sensor read aborts the iteration after the read: no
resolution, no duty-cycle write, no sleep. -/
theorem run_tick_sensor_fail (config : Config) (out : List Char)
    (h : get_temp out = none) :
    run_tick config out = (TickOutcome.sensorError, [Action.readTemp]) := by
  simp [run_tick, h]

/-- Every duty-cycle write of an iteration is a value the resolver
returned for the parsed temperature. -/
theorem run_tick_changeDuty (config : Config) (out : List Char) (i : ℕ) (dd : ℚ)
    (h : Action.changeDuty i dd ∈ (run_tick config out).2) :
    ∃ temp, get_temp out = some temp ∧
      temp_to_duty_cycle config.temp_to_duty_cycle_thresholds temp = some dd := by
  cases h1 : get_temp out with
  | none =>
    rw [run_tick_sensor_fail config out h1] at h
    exact absurd h (by simp)
  | some temp =>
    cases h2 : temp_to_duty_cycle config.temp_to_duty_cycle_thresholds temp with
    | none =>
      simp only [run_tick, h1, h2] at h
      exact absurd h (by simp)
    | some d =>
      simp only [run_tick, h1, h2] at h
      rcases List.mem_cons.mp h with h3 | h3
      · exact absurd h3 (by simp)
      rcases List.mem_append.mp h3 with h4 | h4
      · have hdd := fan_writes_aux_changeDuty d config.fans 0 i dd h4
        subst hdd
        exact ⟨temp, rfl, h2⟩
      · exact absurd (List.mem_singleton.mp h4) (by simp)

/-- As long as every iteration succeeds, the loop stays in its running
state — it has no termination condition of its own — and its trace is the
concatenation of the iteration traces in order. -/
theorem run_loop_ok_shape (config : Config) (outputs : ℕ → List Char) :
    ∀ n, (∀ i, i < n → tick_ok config (outputs i) = true) →
      (run_loop config outputs n).2 = true ∧
      (run_loop config outputs n).1
        = ((List.range n).map (fun i => (run_tick config (outputs i)).2)).flatten := by
  intro n
  induction n with
  | zero => intro _; exact ⟨rfl, rfl⟩
  | succ n ih =>
    intro h
    have hprev := ih (fun i hi => h i (Nat.lt_succ_of_lt hi))
    have hn := h n (Nat.lt_succ_self n)
    rw [run_loop]
    simp only [hprev.1, if_true]
    refine ⟨hn, ?_⟩
    rw [hprev.2]
    rw [List.range_succ, List.map_append, List.flatten_append]
    simp

/-- Every action of the loop's trace belongs to some iteration's trace. -/
theorem run_loop_mem (config : Config) (outputs : ℕ → List Char) :
    ∀ n a, a ∈ (run_loop config outputs n).1 →
      ∃ m, m < n ∧ a ∈ (run_tick config (outputs m)).2 := by
  intro n
  induction n with
  | zero => intro a ha; exact absurd ha (List.not_mem_nil _)
  | succ n ih =>
    intro a ha
    rw [run_loop] at ha
    by_cases h1 : (run_loop config outputs n).2
    · simp only [h1, if_true] at ha
      rcases List.mem_append.mp ha with ha1 | ha1
      · rcases ih a ha1 with ⟨m, hm, hmem⟩
        exact ⟨m, Nat.lt_succ_of_lt hm, hmem⟩
      · exact ⟨n, Nat.lt_succ_self n, ha1⟩
    · simp only [h1, if_false] at ha
      rcases ih a ha with ⟨m, hm, hmem⟩
      exact ⟨m, Nat.lt_succ_of_lt hm, hmem⟩

/-! ## The claims -/

/-- C1: For every threshold table with unique keys that contains a
baseline key 0 (per the spec's glossary, the baseline is the lowest
threshold, so all keys are ≥ 0): for every temperature ≥ 0 (i.e. whenever
some threshold is ≤ the temperature) `temp_to_duty_cycle` returns the duty
cycle associated with the greatest threshold that is ≤ the temperature; a
temperature exactly equal to a threshold key yields that key's duty cycle
(closed lower bound); and a temperature below every non-zero threshold —
in particular any temperature < 0 — yields the baseline duty cycle. -/
theorem resolve_greatest_le_threshold (tbl : Table) (v0 : ℚ)
    (hmem : ((0:ℚ), v0) ∈ tbl)
    (hnodup : (table_keys tbl).Nodup)
    (hnonneg : ∀ k ∈ table_keys tbl, 0 ≤ k) (temp : ℚ) :
    (0 ≤ temp →
      ∃ k v, (k, v) ∈ tbl ∧ k ≤ temp ∧
        (∀ k2 ∈ table_keys tbl, k2 ≤ temp → k2 ≤ k) ∧
        temp_to_duty_cycle tbl temp = some v)
    ∧ (∀ vt, (temp, vt) ∈ tbl → temp_to_duty_cycle tbl temp = some vt)
    ∧ (temp < 0 → temp_to_duty_cycle tbl temp = some v0) := by
  have h0 : (0:ℚ) ∈ table_keys tbl := List.mem_map_of_mem Prod.fst hmem
  have hunf : temp_to_duty_cycle tbl temp
      = dict_get tbl (scan_target (table_keys tbl) temp 0) := rfl
  refine ⟨?_, ?_, ?_⟩
  · intro htemp
    have hmm : scan_target (table_keys tbl) temp 0 ∈ table_keys tbl := by
      rcases scan_target_mem (table_keys tbl) temp 0 with h | h
      · rw [h]; exact h0
      · exact h
    have hml : scan_target (table_keys tbl) temp 0 ≤ temp := by
      rcases scan_target_le_temp (table_keys tbl) temp 0 with h | h
      · exact h
      · rw [h]; exact htemp
    rcases Option.isSome_iff_exists.mp (dict_get_isSome hmm) with ⟨v, hv⟩
    exact ⟨scan_target (table_keys tbl) temp 0, v, dict_get_mem hv, hml,
      fun k2 hk2 hk2t => scan_target_ub (table_keys tbl) temp 0 k2 hk2 hk2t,
      hunf ▸ hv⟩
  · intro vt hvt
    have htk : temp ∈ table_keys tbl := List.mem_map_of_mem Prod.fst hvt
    have hub : temp ≤ scan_target (table_keys tbl) temp 0 :=
      scan_target_ub (table_keys tbl) temp 0 temp htk (le_refl temp)
    have hml : scan_target (table_keys tbl) temp 0 ≤ temp := by
      rcases scan_target_le_temp (table_keys tbl) temp 0 with h | h
      · exact h
      · rw [h]; exact hnonneg temp htk
    rw [hunf, le_antisymm hml hub]
    exact dict_get_of_mem hnodup hvt
  · intro htemp
    have hm0 : scan_target (table_keys tbl) temp 0 = 0 :=
      scan_target_fixed _ _ _ (fun k hk => by
        rcases le_or_lt k 0 with h | h
        · exact Or.inr h
        · exact Or.inl (lt_trans htemp h))
    rw [hunf, hm0]
    exact dict_get_of_mem hnodup hmem

/-- C1 witness: on the scenario table, at temperature 45 the resolver
returns the value of the greatest threshold ≤ 45, and at temperature 60
(a threshold key) it returns that key's own value. -/
theorem resolve_greatest_le_threshold_witness :
    (∃ k v, (k, v) ∈ scenario_table ∧ k ≤ (45:ℚ) ∧
      (∀ k2 ∈ table_keys scenario_table, k2 ≤ (45:ℚ) → k2 ≤ k) ∧
      temp_to_duty_cycle scenario_table 45 = some v) ∧
    temp_to_duty_cycle scenario_table 60 = some 60 :=
  ⟨(resolve_greatest_le_threshold scenario_table 0 (by decide) (by decide)
      (by decide) 45).1 (by decide),
   (resolve_greatest_le_threshold scenario_table 0 (by decide) (by decide)
      (by decide) 60).2.1 60 (by decide)⟩

/-- C2: for a table containing the baseline key 0 whose duty values are
non-decreasing in the threshold key, the resolver is monotone: `a < b`
implies `resolve(a) ≤ resolve(b)` (both defined). -/
theorem resolve_monotone (tbl : Table) (v0 : ℚ)
    (hmem : ((0:ℚ), v0) ∈ tbl)
    (hmono : ∀ p ∈ tbl, ∀ q ∈ tbl, p.1 ≤ q.1 → p.2 ≤ q.2)
    (a b : ℚ) (hab : a < b) :
    ∃ va vb, temp_to_duty_cycle tbl a = some va ∧
      temp_to_duty_cycle tbl b = some vb ∧ va ≤ vb := by
  have h0 : (0:ℚ) ∈ table_keys tbl := List.mem_map_of_mem Prod.fst hmem
  have hma : scan_target (table_keys tbl) a 0 ∈ table_keys tbl := by
    rcases scan_target_mem (table_keys tbl) a 0 with h | h
    · rw [h]; exact h0
    · exact h
  have hmb : scan_target (table_keys tbl) b 0 ∈ table_keys tbl := by
    rcases scan_target_mem (table_keys tbl) b 0 with h | h
    · rw [h]; exact h0
    · exact h
  rcases Option.isSome_iff_exists.mp (dict_get_isSome hma) with ⟨va, hva⟩
  rcases Option.isSome_iff_exists.mp (dict_get_isSome hmb) with ⟨vb, hvb⟩
  have hm : scan_target (table_keys tbl) a 0 ≤ scan_target (table_keys tbl) b 0 :=
    scan_target_mono_temp (table_keys tbl) (le_of_lt hab) 0
  exact ⟨va, vb, hva, hvb,
    hmono (scan_target (table_keys tbl) a 0, va) (dict_get_mem hva)
      (scan_target (table_keys tbl) b 0, vb) (dict_get_mem hvb) hm⟩

/-- C2 witness: on the scenario table with temperatures 45 < 95 the
resolved duty cycles are defined and ordered. -/
theorem resolve_monotone_witness :
    ∃ va vb, temp_to_duty_cycle scenario_table 45 = some va ∧
      temp_to_duty_cycle scenario_table 95 = some vb ∧ va ≤ vb :=
  resolve_monotone scenario_table 0 (by decide) (by decide) 45 95 (by decide)

/-- C3: if the temperature is below every threshold key and no zero key
exists, the resolver fails with a lookup error (`target` stays 0 and the
dict access raises `KeyError`); when a zero key is present it never
fails. -/
theorem resolve_baseline_coverage (tbl : Table) (temp : ℚ) :
    ((∀ k ∈ table_keys tbl, temp < k) → (0:ℚ) ∉ table_keys tbl →
      temp_to_duty_cycle tbl temp = none)
    ∧ ((0:ℚ) ∈ table_keys tbl → (temp_to_duty_cycle tbl temp).isSome = true) := by
  have hunf : temp_to_duty_cycle tbl temp
      = dict_get tbl (scan_target (table_keys tbl) temp 0) := rfl
  constructor
  · intro hbelow h0
    have hm0 : scan_target (table_keys tbl) temp 0 = 0 :=
      scan_target_fixed _ _ _ (fun k hk => Or.inl (hbelow k hk))
    rw [hunf, hm0]
    exact dict_get_eq_none h0
  · intro h0
    have hmm : scan_target (table_keys tbl) temp 0 ∈ table_keys tbl := by
      rcases scan_target_mem (table_keys tbl) temp 0 with h | h
      · rw [h]; exact h0
      · exact h
    exact dict_get_isSome hmm

/-- C3 witness: `{40: 30}` at temperature 10 raises (returns `none`);
adding a zero key makes the same lookup succeed. -/
theorem resolve_baseline_coverage_witness :
    temp_to_duty_cycle [((40:ℚ), (30:ℚ))] 10 = none ∧
    (temp_to_duty_cycle [((0:ℚ), (5:ℚ)), (40, 30)] 10).isSome = true :=
  ⟨(resolve_baseline_coverage [((40:ℚ), (30:ℚ))] 10).1 (by decide) (by decide),
   (resolve_baseline_coverage [((0:ℚ), (5:ℚ)), (40, 30)] 10).2 (by decide)⟩

/-- C9: on the table `{0:0, 40:30, 60:60, 80:100}` the resolver returns 30
at temperature 45, 100 at temperature 95, and 60 — not 30 — at the exact
threshold 60. -/
theorem resolve_scenarios :
    temp_to_duty_cycle scenario_table 45 = some 30 ∧
    temp_to_duty_cycle scenario_table 95 = some 100 ∧
    temp_to_duty_cycle scenario_table 60 = some 60 ∧
    temp_to_duty_cycle scenario_table 60 ≠ some 30 := by decide

/-- C10: a successful resolution always returns one of the duty-cycle
values stored in the table; hence every duty cycle the primary loop writes
to a fan is a configured value, and lies in 0–100 whenever all configured
values do. -/
theorem duty_cycle_values_invariant (config : Config) (outputs : ℕ → List Char) (n : ℕ) :
    (∀ temp d, temp_to_duty_cycle config.temp_to_duty_cycle_thresholds temp = some d →
      d ∈ table_values config.temp_to_duty_cycle_thresholds) ∧
    (∀ i dd, Action.changeDuty i dd ∈ (run_loop config outputs n).1 →
      dd ∈ table_values config.temp_to_duty_cycle_thresholds ∧
      ((∀ v ∈ table_values config.temp_to_duty_cycle_thresholds, 0 ≤ v ∧ v ≤ 100) →
        0 ≤ dd ∧ dd ≤ 100)) := by
  constructor
  · intro temp d hd
    exact dict_get_val_mem hd
  · intro i dd hmem
    rcases run_loop_mem config outputs n _ hmem with ⟨m, hm, hmem2⟩
    rcases run_tick_changeDuty config (outputs m) i dd hmem2 with ⟨temp, h1, h2⟩
    have hv : dd ∈ table_values config.temp_to_duty_cycle_thresholds :=
      dict_get_val_mem h2
    exact ⟨hv, fun hb => hb dd hv⟩

/-- C10 witness: the write observed in the first loop iteration on a
well-formed sensor output carries the configured value 30, within
0–100. -/
theorem duty_cycle_values_invariant_witness :
    (30:ℚ) ∈ table_values scenario_table ∧ 0 ≤ (30:ℚ) ∧ (30:ℚ) ≤ 100 := by
  have h := (duty_cycle_values_invariant two_fan_config (fun _ => good_output) 1).2
    0 30 (by decide)
  exact ⟨h.1, h.2 (by decide)⟩

/-- C4 counterexample: the claim says the read fails whenever the unit
suffix is absent, but on the output `temp=45.2` — which contains no unit
quote at all — `get_temp` succeeds and returns 45.2. -/
theorem sensor_suffix_counterexample :
    quote_char ∉ no_suffix_output ∧
    get_temp no_suffix_output = some (Rat.divInt 226 5) := by decide

/-- C4 (amended): the read fails exactly when the output has no `=`
separator or the text between the first `=` and the next quote (or the end
of the segment) is not a float literal — a missing unit suffix alone does
not make it fail; on a failing read the iteration stops after the read
(no resolution, no write, no sleep) and the loop is dead from the next
iteration on: the error is fatal, with no retry and no fallback duty
cycle. -/
theorem sensor_error_characterization (config : Config) (outputs : ℕ → List Char)
    (n : ℕ) (output : List Char) :
    (get_temp output = none ↔
      eq_char ∉ output ∨
        py_float ((split_on quote_char (((split_on eq_char output).tail).headD [])).headD [])
          = none)
    ∧ (get_temp output = none →
        run_tick config output = (TickOutcome.sensorError, [Action.readTemp]))
    ∧ (get_temp (outputs n) = none → (run_loop config outputs (n + 1)).2 = false) := by
  refine ⟨?_, run_tick_sensor_fail config output, ?_⟩
  · match hsp : split_on eq_char output with
    | [] => exact absurd hsp (split_on_ne_nil eq_char output)
    | [s0] =>
      have hg : get_temp output = none := by rw [get_temp, hsp]
      have hnm : eq_char ∉ output := by
        intro hmem
        have h2 := (split_on_two_iff eq_char output).mpr hmem
        rw [hsp] at h2
        simp at h2
      simp [hg, hnm]
    | s0 :: s1 :: rest =>
      match hq : split_on quote_char s1 with
      | [] => exact absurd hq (split_on_ne_nil quote_char s1)
      | q0 :: qrest =>
        have hmem : eq_char ∈ output := by
          apply (split_on_two_iff eq_char output).mp
          rw [hsp]
          simp only [List.length_cons]
          omega
        have hg : get_temp output = py_float q0 := by
          rw [get_temp, hsp]
          simp only [hq]
        rw [hg]
        simp only [List.headD_cons, List.tail_cons]
        constructor
        · intro h; exact Or.inr h
        · intro h
          rcases h with h | h
          · exact absurd hmem h
          · exact h
  · intro h
    rw [run_loop]
    by_cases hp : (run_loop config outputs n).2
    · simp only [hp, if_true]
      show tick_ok config (outputs n) = false
      rw [tick_ok, run_tick_sensor_fail config (outputs n) h]
    · simp only [Bool.not_eq_true] at hp
      simp [hp]

/-- C4 witness: on the output `temp` (no `=` separator) the iteration
fails after the read alone and the loop is dead one iteration later. -/
theorem sensor_error_characterization_witness :
    run_tick two_fan_config malformed_output
      = (TickOutcome.sensorError, [Action.readTemp]) ∧
    (run_loop two_fan_config (fun _ => malformed_output) 1).2 = false :=
  ⟨(sensor_error_characterization two_fan_config (fun _ => malformed_output) 0
      malformed_output).2.1 (by decide),
   (sensor_error_characterization two_fan_config (fun _ => malformed_output) 0
      malformed_output).2.2 (by decide)⟩

/-- C5 counterexample: on the program's only normally terminating exit
path (test mode), pin 14 is claimed and never released, and no channel is
ever stopped — no shutdown step runs before process exit, so `initialize`
followed by the program's exit does not release the pin claims. -/
theorem shutdown_step_counterexample :
    Action.claimPin 14 ∈ (run_program_test sweep_config).1 ∧
    Action.releasePin 14 ∉ (run_program_test sweep_config).1 ∧
    (∀ i, i < 2 → Action.pwmStop i ∉ (run_program_test sweep_config).1) ∧
    pins_state [] (run_program_test sweep_config).1 = [15, 14] := by decide

/-- C5 (amended): no exit path of the program runs a shutdown step: the
source never stops a PWM channel nor releases a pin claim — neither on the
terminating test-mode path nor anywhere in the primary loop (whose only
exit is a fatal error) — and every pin claimed during startup is still
claimed when the process exits. -/
theorem no_shutdown_on_exit_paths (config : Config) (outputs : ℕ → List Char) (n : ℕ) :
    (∀ a ∈ (run_program_test config).1, is_shutdown_action a = false) ∧
    (∀ a ∈ (run_loop config outputs n).1, is_shutdown_action a = false) ∧
    (∀ g, Action.claimPin g ∈ (run_program_test config).1 →
      g ∈ pins_state [] (run_program_test config).1) := by
  have hprog : ∀ a ∈ (run_program_test config).1, is_shutdown_action a = false := by
    intro a ha
    rcases List.mem_append.mp ha with h | h
    · exact setup_fans_aux_no_shutdown config.fans 0 a h
    · exact test_mode_aux_no_shutdown _ _ _ 0 a h
  exact ⟨hprog, run_loop_no_shutdown config outputs n,
    fun g hg => pins_state_claimed _ hprog [] g hg⟩

/-- C5 witness: after the test-mode run of the two-fan configuration,
pin 14 is still claimed at process exit. -/
theorem no_shutdown_on_exit_paths_witness :
    (14:ℤ) ∈ pins_state [] (run_program_test sweep_config).1 :=
  (no_shutdown_on_exit_paths sweep_config (fun _ => []) 0).2.2 14 (by decide)

/-- C6: as long as every iteration succeeds, the loop keeps running — it
has no termination condition of its own — its trace is the concatenation
of the iteration traces, and each iteration, in order, reads the sensor,
resolves one duty cycle from the parsed temperature, applies that same
resolved percentage to every configured fan in index order, and finally
sleeps for `timeout_seconds`. -/
theorem loop_tick_structure (config : Config) (outputs : ℕ → List Char) (n : ℕ)
    (h : ∀ i, i < n → tick_ok config (outputs i) = true) :
    (run_loop config outputs n).2 = true ∧
    (run_loop config outputs n).1
      = ((List.range n).map (fun i => (run_tick config (outputs i)).2)).flatten ∧
    ∀ i, i < n → ∃ temp d,
      get_temp (outputs i) = some temp ∧
      temp_to_duty_cycle config.temp_to_duty_cycle_thresholds temp = some d ∧
      (run_tick config (outputs i)).2.length = 2 * config.fans.length + 2 ∧
      (run_tick config (outputs i)).2[0]? = some Action.readTemp ∧
      (∀ j, j < config.fans.length →
        (run_tick config (outputs i)).2[2 * j + 1]? = some (Action.logStep j d) ∧
        (run_tick config (outputs i)).2[2 * j + 2]? = some (Action.changeDuty j d)) ∧
      (run_tick config (outputs i)).2[2 * config.fans.length + 1]?
        = some (Action.sleep config.timeout_seconds) := by
  have hjoin := run_loop_ok_shape config outputs n h
  refine ⟨hjoin.1, hjoin.2, ?_⟩
  intro i hi
  rcases run_tick_ok_shape config (outputs i) (h i hi) with ⟨temp, d, h1, h2, hout, htr⟩
  have hlen : (fan_writes_aux d 0 config.fans).length = 2 * config.fans.length :=
    fan_writes_aux_length d config.fans 0
  refine ⟨temp, d, h1, h2, ?_, ?_, ?_, ?_⟩
  · rw [htr]
    simp only [List.length_cons, List.length_append, List.length_nil, hlen]
  · rw [htr]
    simp
  · intro j hj
    have hfw := fan_writes_aux_getElem d config.fans 0 j hj
    simp only [Nat.zero_add] at hfw
    have hb1 : 2 * j < (fan_writes_aux d 0 config.fans).length := by
      rw [hlen]; omega
    have hb2 : 2 * j + 1 < (fan_writes_aux d 0 config.fans).length := by
      rw [hlen]; omega
    constructor
    · rw [htr, List.getElem?_cons_succ, List.getElem?_append_left hb1]
      exact hfw.1
    · have e1 : 2 * j + 2 = (2 * j + 1) + 1 := by omega
      rw [htr, e1, List.getElem?_cons_succ, List.getElem?_append_left hb2]
      exact hfw.2
  · rw [htr, List.getElem?_cons_succ, List.getElem?_append_right (le_of_eq hlen), hlen]
    simp

/-- C6 witness: two iterations on well-formed sensor output leave the loop
running, and the first iteration's trace has the stated shape. -/
theorem loop_tick_structure_witness :
    (run_loop two_fan_config (fun _ => good_output) 2).2 = true ∧
    (run_tick two_fan_config good_output).2[0]? = some Action.readTemp := by
  refine ⟨(loop_tick_structure two_fan_config (fun _ => good_output) 2 ?_).1, by decide⟩
  intro i _
  show tick_ok two_fan_config good_output = true
  decide

/-- C7 counterexample: the diagnostic sweep's very first action is the
conceptual duty-cycle step for fan 0 and the first table value, with no
sleep before it — the sweep logs each step first and sleeps afterwards, so
"each step is preceded by one sleep" is false (the sleep count, 6 for 2
fans and 3 values, is as claimed). -/
theorem sweep_order_counterexample :
    (test_mode_trace sweep_config).head? = some (Action.logStep 0 0) ∧
    step_preceded_by_sleep 5 (test_mode_trace sweep_config) = false ∧
    (test_mode_trace sweep_config).count (Action.sleep 5) = 6 := by decide

/-- C7 (amended): the diagnostic sweep visits the fans in configured order
and, for each fan, the duty values of the threshold table in insertion
order; each conceptual step is immediately FOLLOWED (not preceded) by one
sleep of `timeout_seconds`; with `F` fans and `V` table values it performs
exactly `F·V` timed steps and `F·V` sleeps, runs to completion once, and
the test-mode program exits with code 0. -/
theorem sweep_structure (config : Config) :
    steps_followed config.timeout_seconds (test_mode_trace config) ∧
    (test_mode_trace config).count (Action.sleep config.timeout_seconds)
      = config.fans.length * (table_values config.temp_to_duty_cycle_thresholds).length ∧
    (test_mode_trace config).length
      = config.fans.length
          * (2 * (table_values config.temp_to_duty_cycle_thresholds).length) ∧
    (∀ f j, f < config.fans.length →
      j < (table_values config.temp_to_duty_cycle_thresholds).length →
      (test_mode_trace config)[2 * (f * (table_values config.temp_to_duty_cycle_thresholds).length + j)]?
        = some (Action.logStep f
            ((table_values config.temp_to_duty_cycle_thresholds).getD j 0)) ∧
      (test_mode_trace config)[2 * (f * (table_values config.temp_to_duty_cycle_thresholds).length + j) + 1]?
        = some (Action.sleep config.timeout_seconds)) ∧
    (run_program_test config).2 = 0 := by
  refine ⟨test_mode_aux_followed _ _ _ 0, test_mode_aux_count _ _ _ 0,
    test_mode_aux_length _ _ _ 0, ?_, rfl⟩
  intro f j hf hj
  have h := test_mode_aux_getElem (table_values config.temp_to_duty_cycle_thresholds)
    config.timeout_seconds config.fans 0 f j hf hj
  simp only [Nat.zero_add] at h
  exact h

/-- C7 witness: in the two-fan, three-value sweep, position 2·(1·3+2) is
the conceptual step for the second fan at the third value, followed at
the next position by the sleep. -/
theorem sweep_structure_witness :
    (test_mode_trace sweep_config)[2 * (1 * 3 + 2)]? = some (Action.logStep 1 60) ∧
    (test_mode_trace sweep_config)[2 * (1 * 3 + 2) + 1]? = some (Action.sleep 5) := by
  have h := (sweep_structure sweep_config).2.2.2.1 1 2 (by decide) (by decide)
  exact h

/-- C8: the diagnostic sweep is a dry run: it contains no hardware
duty-cycle write, so after initialization (which starts every channel at
0%) and the whole sweep, every configured channel is still at 0% duty —
whatever the duty state was before the program ran. -/
theorem sweep_dry_run (config : Config) (s : ℕ → ℚ) (i : ℕ)
    (h : i < config.fans.length) :
    (∀ a ∈ test_mode_trace config, is_hw_write a = false) ∧
    duty_state s (run_program_test config).1 i = 0 := by
  have hnw : ∀ a ∈ test_mode_trace config, is_hw_write a = false :=
    test_mode_aux_no_write _ _ _ 0
  refine ⟨hnw, ?_⟩
  have he : (run_program_test config).1
      = setup_fans_trace config ++ test_mode_trace config := rfl
  rw [he, duty_state_append, duty_state_no_write _ hnw]
  apply setup_fans_aux_duty_eq config.fans 0 s i (Nat.zero_le i)
  simpa using h

/-- C8 witness: with an arbitrary pre-existing duty state of 37%, channel
0 of the two-fan configuration is at 0% after initialization plus the
sweep. -/
theorem sweep_dry_run_witness :
    duty_state (fun _ => 37) (run_program_test sweep_config).1 0 = 0 :=
  (sweep_dry_run sweep_config (fun _ => 37) 0 (by decide)).2

end PWMFan
